import Mathlib

set_option maxHeartbeats 1000000
set_option maxRecDepth 20000

namespace StudyMate

/-- Model of Python `str.split()`: split a character list on runs of whitespace,
returning the maximal non-empty words (accumulator holds the current word reversed). -/
def splitWordsAux : List Char → List Char → List String
  | [], acc => if acc = [] then [] else [String.mk acc.reverse]
  | c :: cs, acc =>
    if c.isWhitespace then
      (if acc = [] then splitWordsAux cs [] else String.mk acc.reverse :: splitWordsAux cs [])
    else splitWordsAux cs (c :: acc)

/-- Model of Python `text.split()` (split on whitespace, dropping empty fields). -/
def pySplit (s : String) : List String := splitWordsAux s.data []

/-- Word count of a sentence: `len(sentence.split())` in the source. -/
def wcS (s : String) : Nat := (pySplit s).length

/-- Model of the Python character slice `s[:n]`. -/
def pySlice (n : Nat) (s : String) : String := String.mk (s.data.take n)

/-- Model of `" ".join(chunk)` in the source. -/
def joinSp : List String → String
  | [] => ""
  | [s] => s
  | s :: t :: rest => s ++ " " ++ joinSp (t :: rest)

/-- Total word count of a chunk, i.e. the sum of `len(sent.split())` over its
sentences — exactly the quantity the source's `current_tokens` tracks. -/
def wcC (wcF : α → Nat) (c : List α) : Nat := (c.map wcF).sum

/-- Embedding of the overlap-seed loop of `chunk_text` (utils.py lines 124-132):
walk `reversed(current_chunk)`, prepending sentences while the accumulated token
count stays at or below `overlap`, stopping at the first sentence that would
exceed it.  `rev` is the reversed current chunk, `acc`/`ot` the accumulated
`overlap_sentences`/`overlap_tokens`. -/
def overlapAux (wcF : α → Nat) (ov : Nat) : List α → List α → Nat → List α × Nat
  | [], acc, ot => (acc, ot)
  | s :: rest, acc, ot =>
    if ot + wcF s ≤ ov then overlapAux wcF ov rest (s :: acc) (ot + wcF s)
    else (acc, ot)

/-- Embedding of the main sentence loop of `chunk_text` (utils.py lines 116-142).
`wcF` is `len(·.split())`; the guard mirrors
`current_tokens + sentence_tokens > chunk_size and current_chunk`. -/
def chunkLoop [DecidableEq α] (wcF : α → Nat) (cs ov : Nat) :
    List α → List (List α) → List α → Nat → List (List α)
  | [], chunks, cur, _ => if cur = [] then chunks else chunks ++ [cur]
  | s :: rest, chunks, cur, ct =>
    if ct + wcF s > cs ∧ cur ≠ [] then
      chunkLoop wcF cs ov rest (chunks ++ [cur])
        ((overlapAux wcF ov cur.reverse [] 0).1 ++ [s])
        ((overlapAux wcF ov cur.reverse [] 0).2 + wcF s)
    else
      chunkLoop wcF cs ov rest chunks (cur ++ [s]) (ct + wcF s)

/-- Chunking of a tokenized sentence list, as in `chunk_text` after `sent_tokenize`. -/
def chunkSentences [DecidableEq α] (wcF : α → Nat) (cs ov : Nat) (sents : List α) : List (List α) :=
  chunkLoop wcF cs ov sents [] [] 0

namespace Utils

/-- Embedding of `chunk_text` (utils.py lines 102-148).  The sentence tokenizer
`sent_tokenize` is an injected external capability; `tok text = none` models the
tokenizer raising, in which case the source returns `[text]` as fallback.
The empty/whitespace-only guard models `if not text.strip(): return []`
(`text.strip()` is falsy exactly when every character is whitespace). -/
def chunk_text (tok : String → Option (List String)) (cs ov : Nat) (text : String) :
    List String :=
  if text.data.all Char.isWhitespace then []
  else
    match tok text with
    | some sents => (chunkSentences wcS cs ov sents).map joinSp
    | none => [text]

end Utils

namespace Pipeline

/-- Model of the Python slice `chunk[-50:]` in `load_and_chunk_files`. -/
def last50 (l : List α) : List α := l.drop (l.length - 50)

/-- Embedding of the inline chunking loop of `load_and_chunk_files`
(studymateai_rag_pipeline.py lines 201-211): on overflow of the fixed 500-word
budget the current chunk is emitted, the new chunk is seeded with the last 50
sentences (`chunk = chunk[-50:]`) regardless of their word count, and the token
counter is recomputed as the seed's word sum. -/
def pipeChunkLoop [DecidableEq α] (wcF : α → Nat) :
    List α → List (List α) → List α → Nat → List (List α)
  | [], chunks, cur, _ => if cur = [] then chunks else chunks ++ [cur]
  | s :: rest, chunks, cur, t =>
    if t + wcF s > 500 then
      pipeChunkLoop wcF rest (chunks ++ [cur])
        (last50 cur ++ [s]) (wcC wcF (last50 cur) + wcF s)
    else
      pipeChunkLoop wcF rest chunks (cur ++ [s]) (t + wcF s)

/-- Chunking of a tokenized sentence list as performed inline by
`load_and_chunk_files`; sentences are represented by their word lists
(so `wcF` is `List.length`, matching `len(sent.split())`). -/
def pipeChunk [DecidableEq α] (wcF : α → Nat) (sents : List α) : List (List α) :=
  pipeChunkLoop wcF sents [] [] 0

/-- Embedding of the module-level `embed_text` of studymateai_rag_pipeline.py
(lines 216-223).  The `ollama` subprocess is an injected external capability
`runModel` (stdout of `ollama run bge-m3` on the prompt); `parseEval` models the
`eval(...)`-based parse of the last output line, returning `none` when the
`except` branch fires.  The prompt submits the FULL input text. -/
def embed_text (runModel : String → String)
    (parseEval : String → Option (List Int)) (text : String) : Option (List Int) :=
  parseEval (runModel ("Return a dense vector embedding of this text:\n" ++ text))

/-- A document dict built by `load_and_chunk_files`:
`{"id": ..., "text": ..., "source_file": ...}`. -/
structure Doc where
  id : String
  text : String
  sourceFile : String
  deriving DecidableEq

end Pipeline

namespace ChunkStore

/-- A stored entry: chunk id, chunk text, source-file metadata and embedding
vector.  Vector components are opaque to every modelled operation (only length
and identity are ever inspected), so they are carried as integers. -/
structure Entry where
  id : String
  text : String
  file : String
  emb : List Int
  deriving DecidableEq

/-- Modelled from the spec: the Chunk Store state.  The store itself is
chromadb's collection, an external service not in src/; per spec section 3 all
vectors in a store instance share one configured dimensionality. -/
structure Store where
  dim : Nat
  entries : List Entry
  deriving DecidableEq

/-- Modelled from the spec: the store's error taxonomy for a rejected `put`
(spec sections 4.2 and 7). -/
inductive StoreErr where
  | SchemaMismatch
  deriving DecidableEq

/-- Modelled from the spec: single-entry upsert keyed by `Chunk.id` —
"re-ingesting the same id overwrites rather than duplicates" (spec 4.2).
An existing entry with the same id is overwritten in place; otherwise the
entry is appended. -/
def putOne (l : List Entry) (e : Entry) : List Entry :=
  if l.any (fun x => x.id == e.id) then l.map (fun x => if x.id == e.id then e else x)
  else l ++ [e]

/-- Modelled from the spec: `put(entries)` (spec 4.2) — an idempotent upsert
keyed by id that rejects any embedding whose dimensionality differs from the
store's with a `SchemaMismatch` error, all-or-nothing per call. -/
def put (st : Store) (es : List Entry) : Except StoreErr Store :=
  if es.all (fun e => e.emb.length == st.dim) then
    Except.ok ⟨st.dim, es.foldl putOne st.entries⟩
  else Except.error StoreErr.SchemaMismatch

/-- Number of stored entries carrying a given chunk id. -/
def countId (l : List Entry) (i : String) : Nat :=
  (l.filter (fun x => x.id == i)).length

end ChunkStore

namespace Pipeline

open ChunkStore

/-- Embedding of `store_chunks` (studymateai_rag_pipeline.py lines 225-233):
for each document, embed its text and — when the embedding is truthy
(`if emb:` skips both `None` and `[]`) — add it to the collection under the
document's id.  The collection's `add` is the spec-modelled `put`; a store
error raised by `add` propagates out as in the source (no try around it). -/
def store_chunks (embedF : String → Option (List Int)) :
    Store → List Doc → Except StoreErr Store
  | st, [] => Except.ok st
  | st, doc :: rest =>
    match embedF doc.text with
    | some emb =>
      if emb = [] then store_chunks embedF st rest
      else
        match put st [⟨doc.id, doc.text, doc.sourceFile, emb⟩] with
        | Except.ok st2 => store_chunks embedF st2 rest
        | Except.error err => Except.error err
    | none => store_chunks embedF st rest

/-- Embedding of `retrieve_chunks` (studymateai_rag_pipeline.py lines 235-241).
`colQuery` models `collection.query(query_embeddings=[emb], n_results=3)`
returning the `"documents"` field; `if not emb: return []` covers both a `None`
and an empty embedding. -/
def retrieve_chunks (runModel : String → String)
    (parseEval : String → Option (List Int))
    (colQuery : List Int → Nat → List (List String)) (query : String) : List String :=
  match embed_text runModel parseEval query with
  | none => []
  | some emb =>
    if emb = [] then []
    else
      match colQuery emb 3 with
      | [] => []
      | d :: _ => d

end Pipeline

namespace Utils

/-- Embedding of `embed_text` of utils.py (lines 226-244).  `callOllama` is the
injected `call_ollama(model, prompt)` capability (`Except.error` models the
`APIError` branch, which the source turns into `None`); `parseEval` models the
`eval`-based parsing of the subprocess output (`none` on parse failure).  The
prompt submits only `text[:1000]`. -/
def embed_text (callOllama : String → String → Except String String)
    (parseEval : String → Option (List Int)) (text : String) : Option (List Int) :=
  match callOllama "bge-m3" ("Generate embeddings for: " ++ pySlice 1000 text) with
  | Except.ok result => parseEval result
  | Except.error _ => none

/-- Fixed preamble of the assignment prompt, up to the title. -/
def promptHeader : String :=
  "You are StudyMateAI, an expert academic assistant. You must provide a complete, well-structured answer to the following assignment.\n\nAssignment Title: "

/-- Fixed text between the title and the description. -/
def promptDescTag : String := "\n\nAssignment Description: "

/-- Fixed instruction block closing the assignment prompt. -/
def promptInstructions : String :=
  "Instructions:\n1. Provide a comprehensive answer that demonstrates deep understanding\n2. Use proper academic formatting with clear sections and subsections\n3. Include relevant examples, explanations, and analysis\n4. Ensure your response is college-level quality\n5. If the assignment asks for specific formats (essay, report, case study), follow those guidelines\n6. Draw from both the provided materials and your general knowledge\n\nYour answer should be complete and ready for submission. Do not ask for clarification or additional information.\n\nAnswer:"

/-- The `context_section` of `format_assignment_prompt` (utils.py lines
300-306): empty when `context_chunks` is falsy, otherwise a heading plus one
`- {chunk[:200]}...` line per chunk joined by `chr(10)`. -/
def contextSection (context_chunks : List String) : String :=
  if context_chunks = [] then ""
  else
    "\nRelevant course materials:\n" ++
      String.intercalate "\n"
        (context_chunks.map (fun chunk => "- " ++ pySlice 200 chunk ++ "...")) ++
      "\n\n"

/-- Embedding of `format_assignment_prompt` (utils.py lines 296-326).
`description or 'No specific description provided.'` substitutes the literal
placeholder exactly when the description is the empty string; the context
section is spliced between the description block and the instructions. -/
def format_assignment_prompt (title description : String)
    (context_chunks : List String) : String :=
  promptHeader ++ title ++ promptDescTag ++
    (if description = "" then "No specific description provided." else description) ++
    "\n\n" ++ contextSection context_chunks ++ promptInstructions

end Utils

/-- Does `pat` occur at the head of `hay`? -/
def strStarts : List Char → List Char → Bool
  | [], _ => true
  | _ :: _, [] => false
  | p :: ps, h :: hs => p == h && strStarts ps hs

/-- Does `pat` occur anywhere in `hay` (as a contiguous run)? -/
def listHas (pat : List Char) : List Char → Bool
  | [] => strStarts pat []
  | h :: hs => strStarts pat (h :: hs) || listHas pat hs

/-- Substring occurrence test on strings. -/
def strHas (hay pat : String) : Bool := listHas pat.data hay.data

/-- First query text of the C10 counterexample: 1000 copies of 'a' then 'x'. -/
def qTextX : String := String.mk (List.replicate 1000 'a' ++ ['x'])

/-- Second query text of the C10 counterexample: 1000 copies of 'a' then 'y'. -/
def qTextY : String := String.mk (List.replicate 1000 'a' ++ ['y'])

/-- Parse capability of the C10 counterexample: recognizes the exact pipeline
prompt built from `qTextX` and yields a different vector for anything else. -/
def parseDistinguish : String → Option (List Int) :=
  fun s =>
    if s = "Return a dense vector embedding of this text:\n" ++ qTextX then some [1]
    else some [2]

/-- Collection-query capability of the C10 counterexample: returns a document
naming which of the two vectors was queried. -/
def colQueryTag : List Int → Nat → List (List String) :=
  fun v _ => [[if v = [1] then "A" else "B"]]

/-- Instrumented variant of `chunkLoop` that carries each chunk split into the
seed inherited from the previous chunk and the sentences appended after it.
Guard and arithmetic are identical to `chunkLoop`; only bookkeeping differs. -/
def chunkLoopSeeded [DecidableEq α] (wcF : α → Nat) (cs ov : Nat) :
    List α → List (List α × List α) → List α × List α → Nat → List (List α × List α)
  | [], done, sb, _ => if sb.1 ++ sb.2 = [] then done else done ++ [sb]
  | s :: rest, done, sb, ct =>
    if ct + wcF s > cs ∧ sb.1 ++ sb.2 ≠ [] then
      chunkLoopSeeded wcF cs ov rest (done ++ [sb])
        ((overlapAux wcF ov (sb.1 ++ sb.2).reverse [] 0).1, [s])
        ((overlapAux wcF ov (sb.1 ++ sb.2).reverse [] 0).2 + wcF s)
    else
      chunkLoopSeeded wcF cs ov rest done (sb.1, sb.2 ++ [s]) (ct + wcF s)

/-- Seed/remainder decomposition of the chunks of `chunkSentences`. -/
def chunkSeeded [DecidableEq α] (wcF : α → Nat) (cs ov : Nat) (sents : List α) :
    List (List α × List α) :=
  chunkLoopSeeded wcF cs ov sents [] ([], []) 0

lemma splitWordsAux_space (ys : List Char) :
    ∀ (xs acc : List Char),
      splitWordsAux (xs ++ ' ' :: ys) acc = splitWordsAux xs acc ++ splitWordsAux ys [] := by
  intro xs
  induction xs with
  | nil =>
    intro acc
    by_cases hacc : acc = [] <;> simp [splitWordsAux, hacc]
  | cons c cs ih =>
    intro acc
    by_cases hwc : c.isWhitespace
    · by_cases hacc : acc = [] <;> simp [splitWordsAux, hwc, hacc, ih]
    · simp [splitWordsAux, hwc, ih]

lemma wcS_append_space (s t : String) : wcS (s ++ " " ++ t) = wcS s + wcS t := by
  unfold wcS pySplit
  rw [String.data_append, String.data_append]
  have hsp : (" " : String).data = [' '] := rfl
  rw [hsp, List.append_assoc, List.singleton_append]
  rw [splitWordsAux_space t.data s.data []]
  simp

lemma wcS_joinSp : ∀ c : List String, wcS (joinSp c) = wcC wcS c := by
  intro c
  induction c with
  | nil => simp [joinSp, wcS, pySplit, splitWordsAux, wcC]
  | cons s rest ih =>
    cases rest with
    | nil => simp [joinSp, wcC]
    | cons t rest2 =>
      rw [joinSp, wcS_append_space, ih]
      simp [wcC]

lemma overlapAux_le (wcF : α → Nat) (ov : Nat) :
    ∀ (rev acc : List α) (ot : Nat), ot ≤ ov → (overlapAux wcF ov rev acc ot).2 ≤ ov := by
  intro rev
  induction rev with
  | nil => intro acc ot h; simpa [overlapAux] using h
  | cons s rest ih =>
    intro acc ot h
    by_cases hc : ot + wcF s ≤ ov
    · simpa [overlapAux, hc] using ih _ _ hc
    · simpa [overlapAux, hc] using h

lemma overlapAux_wc (wcF : α → Nat) (ov : Nat) :
    ∀ (rev acc : List α) (ot : Nat),
      (overlapAux wcF ov rev acc ot).2 + wcC wcF acc
        = wcC wcF (overlapAux wcF ov rev acc ot).1 + ot := by
  intro rev
  induction rev with
  | nil => intro acc ot; simp [overlapAux]; omega
  | cons s rest ih =>
    intro acc ot
    by_cases hc : ot + wcF s ≤ ov
    · have h2 := ih (s :: acc) (ot + wcF s)
      simp only [overlapAux, hc, if_true, wcC, List.map_cons, List.sum_cons] at h2 ⊢
      omega
    · simp [overlapAux, hc]; omega

lemma overlapAux_wc_base (wcF : α → Nat) (ov : Nat) (rev : List α) :
    (overlapAux wcF ov rev [] 0).2 = wcC wcF (overlapAux wcF ov rev [] 0).1 := by
  have h := overlapAux_wc wcF ov rev [] 0
  simpa [wcC] using h

lemma wcC_append (wcF : α → Nat) (l1 l2 : List α) :
    wcC wcF (l1 ++ l2) = wcC wcF l1 + wcC wcF l2 := by
  simp [wcC]

lemma chunkLoopSeeded_proj [DecidableEq α] (wcF : α → Nat) (cs ov : Nat) :
    ∀ (rest : List α) (done : List (List α × List α)) (sb : List α × List α) (ct : Nat),
      chunkLoop wcF cs ov rest (done.map fun p => p.1 ++ p.2) (sb.1 ++ sb.2) ct
        = (chunkLoopSeeded wcF cs ov rest done sb ct).map fun p => p.1 ++ p.2 := by
  intro rest
  induction rest with
  | nil =>
    intro done sb ct
    by_cases h : sb.1 ++ sb.2 = [] <;>
      simp [chunkLoop, chunkLoopSeeded, h]
  | cons s rest ih =>
    intro done sb ct
    simp only [chunkLoop, chunkLoopSeeded]
    by_cases h : ct + wcF s > cs ∧ sb.1 ++ sb.2 ≠ []
    · rw [if_pos h, if_pos h]
      have h2 := ih (done ++ [sb])
        ((overlapAux wcF ov (sb.1 ++ sb.2).reverse [] 0).1, [s])
        ((overlapAux wcF ov (sb.1 ++ sb.2).reverse [] 0).2 + wcF s)
      simpa using h2
    · rw [if_neg h, if_neg h]
      have h2 := ih done (sb.1, sb.2 ++ [s]) (ct + wcF s)
      simpa [List.append_assoc] using h2

lemma chunkLoopSeeded_snd_join [DecidableEq α] (wcF : α → Nat) (cs ov : Nat) :
    ∀ (rest : List α) (done : List (List α × List α)) (sb : List α × List α) (ct : Nat),
      ((chunkLoopSeeded wcF cs ov rest done sb ct).map Prod.snd).flatten
        = ((done.map Prod.snd).flatten ++ sb.2) ++ rest := by
  intro rest
  induction rest with
  | nil =>
    intro done sb ct
    by_cases h : sb.1 ++ sb.2 = []
    · have h1 : sb.1 = [] := (List.append_eq_nil.1 h).1
      have h2 : sb.2 = [] := (List.append_eq_nil.1 h).2
      simp [chunkLoopSeeded, h, h1, h2]
    · simp [chunkLoopSeeded, h]
  | cons s rest ih =>
    intro done sb ct
    simp only [chunkLoopSeeded]
    by_cases h : ct + wcF s > cs ∧ sb.1 ++ sb.2 ≠ []
    · rw [if_pos h]
      have h2 := ih (done ++ [sb])
        ((overlapAux wcF ov (sb.1 ++ sb.2).reverse [] 0).1, [s])
        ((overlapAux wcF ov (sb.1 ++ sb.2).reverse [] 0).2 + wcF s)
      simp only [h2]
      simp
    · rw [if_neg h]
      have h2 := ih done (sb.1, sb.2 ++ [s]) (ct + wcF s)
      simp only [h2]
      simp

lemma chunkLoop_wc_bound [DecidableEq α] (wcF : α → Nat) (cs ov M : Nat) :
    ∀ (rest : List α) (done : List (List α)) (cur : List α) (ct : Nat),
      (∀ x ∈ rest, wcF x ≤ M) →
      (∀ c ∈ done, wcC wcF c ≤ max cs (ov + M)) →
      ct = wcC wcF cur → ct ≤ max cs (ov + M) →
      ∀ c ∈ chunkLoop wcF cs ov rest done cur ct, wcC wcF c ≤ max cs (ov + M) := by
  intro rest
  induction rest with
  | nil =>
    intro done cur ct _ hdone hct hle c hc
    by_cases hcur : cur = []
    · simp only [chunkLoop, hcur, if_true] at hc
      exact hdone c hc
    · simp only [chunkLoop, hcur, if_false, List.mem_append, List.mem_singleton] at hc
      rcases hc with hc | hc
      · exact hdone c hc
      · subst hc; omega
  | cons s rest ih =>
    intro done cur ct hrest hdone hct hle c hc
    have hsM : wcF s ≤ M := hrest s (List.mem_cons_self s rest)
    have hrest2 : ∀ x ∈ rest, wcF x ≤ M := fun x hx => hrest x (List.mem_cons_of_mem s hx)
    by_cases hg : ct + wcF s > cs ∧ cur ≠ []
    · simp only [chunkLoop] at hc
      rw [if_pos hg] at hc
      refine ih (done ++ [cur]) _ _ hrest2 ?_ ?_ ?_ c hc
      · intro c2 hc2
        rcases List.mem_append.1 hc2 with hc2 | hc2
        · exact hdone c2 hc2
        · rw [List.mem_singleton.1 hc2]; omega
      · rw [wcC_append, overlapAux_wc_base]
        simp [wcC]
      · have h1 : (overlapAux wcF ov cur.reverse [] 0).2 ≤ ov :=
          overlapAux_le wcF ov cur.reverse [] 0 (Nat.zero_le ov)
        have h2 : (overlapAux wcF ov cur.reverse [] 0).2 + wcF s ≤ ov + M := by omega
        omega
    · simp only [chunkLoop] at hc
      rw [if_neg hg] at hc
      refine ih done _ _ hrest2 hdone ?_ ?_ c hc
      · rw [wcC_append, hct]; simp [wcC]
      · rcases Decidable.not_and_iff_or_not.1 hg with hg2 | hg2
        · have : ct + wcF s ≤ cs := Nat.le_of_not_lt hg2
          omega
        · have hcur : cur = [] := Decidable.not_not.1 hg2
          subst hcur
          simp [wcC] at hct
          omega

namespace ChunkStore

lemma countId_cons (x : Entry) (xs : List Entry) (i : String) :
    countId (x :: xs) i = (if x.id == i then 1 else 0) + countId xs i := by
  by_cases hx : (x.id == i) = true
  · simp [countId, List.filter_cons, hx]
    omega
  · simp [countId, List.filter_cons, hx]

lemma countId_append (l1 l2 : List Entry) (i : String) :
    countId (l1 ++ l2) i = countId l1 i + countId l2 i := by
  simp [countId, List.filter_append]

lemma countId_map_overwrite (l : List Entry) (e : Entry) :
    countId (l.map fun x => if x.id == e.id then e else x) e.id = countId l e.id := by
  induction l with
  | nil => simp [countId]
  | cons x xs ih =>
    rw [List.map_cons, countId_cons, countId_cons, ih]
    by_cases hx : (x.id == e.id) = true <;> simp [hx]

lemma countId_putOne (l : List Entry) (e : Entry) (h : countId l e.id ≤ 1) :
    countId (putOne l e) e.id = 1 := by
  unfold putOne
  by_cases hany : (l.any fun x => x.id == e.id) = true
  · rw [if_pos hany, countId_map_overwrite]
    rcases List.any_eq_true.1 hany with ⟨x, hxl, hx⟩
    have hmem : x ∈ l.filter fun y => y.id == e.id := List.mem_filter.2 ⟨hxl, hx⟩
    have hpos : 0 < countId l e.id := List.length_pos_of_mem hmem
    omega
  · rw [if_neg hany, countId_append]
    have h0 : countId l e.id = 0 := by
      have hall : ∀ x ∈ l, ¬ (x.id == e.id) = true := by
        intro x hxl hx
        exact hany (List.any_eq_true.2 ⟨x, hxl, hx⟩)
      simp only [countId]
      rw [List.filter_eq_nil_iff.2 hall]
      rfl
    rw [h0]
    simp [countId]

end ChunkStore

/-- C1: the claim states that both chunkers seed each new chunk with a
sentence-granular suffix of the previous chunk whose word count is at most the
overlap `o`.  This evaluates the inline chunker of `load_and_chunk_files` at a
failing input: two sentences of 300 words each.  The second chunk's seed
portion is the ENTIRE previous chunk `[replicate 300 "a"]` — 300 words, far
above the 50-word overlap bound of the spec's canonical policy (and of
`config.CHUNK_OVERLAP`) — because the source reuses a fixed count of trailing
sentences (`chunk = chunk[-50:]`) without any word-count re-check. -/
theorem load_and_chunk_fixed_count_seed :
    Pipeline.pipeChunk List.length
        [List.replicate 300 "a", List.replicate 300 "b"]
      = [[List.replicate 300 "a"],
         [List.replicate 300 "a", List.replicate 300 "b"]]
    ∧ wcC List.length [List.replicate 300 "a"] = 300
    ∧ ¬ (300 ≤ 50) := by
  refine ⟨by decide, by decide, by decide⟩

/-- C2 counterexample: with chunk_size 20 and overlap 10, the tokenizer output
[10-word, 15-word, 1-word] makes `chunk_text` emit a middle chunk of 25 words
(the 10-word overlap seed plus the 15-word sentence) even though no single
sentence exceeds the chunk size of 20 — refuting the claim that a chunk may
exceed `s` only by containing a single sentence longer than `s`. -/
theorem chunk_text_size_counterexample :
    Utils.chunk_text
        (fun _ => some ["a a a a a a a a a a", "b b b b b b b b b b b b b b b", "c"])
        20 10 "doc"
      = ["a a a a a a a a a a",
         "a a a a a a a a a a b b b b b b b b b b b b b b b",
         "c"]
    ∧ wcS "a a a a a a a a a a b b b b b b b b b b b b b b b" = 25
    ∧ ¬ (25 ≤ 20)
    ∧ wcS "a a a a a a a a a a" ≤ 20
    ∧ wcS "b b b b b b b b b b b b b b b" ≤ 20
    ∧ wcS "c" ≤ 20 := by
  refine ⟨by decide, by decide, by decide, by decide, by decide, by decide⟩

/-- C2 (amended): every chunk produced by `chunk_text` has word count at most
`max s (o + m)`, where `m` bounds the word count of a single tokenizer
sentence: a chunk can exceed `s` only as an overlap seed (at most `o` words)
plus the first sentence appended after it, or as a lone oversized sentence —
never by more, and no sentence is ever split. -/
theorem chunk_text_size_bound (tok : String → Option (List String)) (cs ov M : Nat)
    (text : String) (sents : List String) (htok : tok text = some sents)
    (hM : ∀ s ∈ sents, wcS s ≤ M) :
    ∀ c ∈ Utils.chunk_text tok cs ov text, wcS c ≤ max cs (ov + M) := by
  intro c hc
  unfold Utils.chunk_text at hc
  by_cases ht : (text.data.all Char.isWhitespace) = true
  · rw [if_pos ht] at hc
    simp at hc
  · rw [if_neg ht, htok] at hc
    simp only [List.mem_map] at hc
    obtain ⟨ch, hch, rfl⟩ := hc
    rw [wcS_joinSp]
    exact chunkLoop_wc_bound wcS cs ov M sents [] [] 0 hM (by simp) (by simp [wcC]) (by simp)
      ch hch

/-- Witness for C2's amended bound at the counterexample input: every chunk
stays within `max 20 (10 + 15) = 25` words. -/
theorem chunk_text_size_bound_witness :
    (∀ s ∈ (["a a a a a a a a a a", "b b b b b b b b b b b b b b b", "c"] : List String),
        wcS s ≤ 15)
    ∧ ∀ c ∈ Utils.chunk_text
        (fun _ => some ["a a a a a a a a a a", "b b b b b b b b b b b b b b b", "c"])
        20 10 "doc", wcS c ≤ max 20 (10 + 15) :=
  ⟨by decide,
   chunk_text_size_bound _ 20 10 15 "doc" _ rfl (by decide)⟩

/-- C4: on a text whose tokenizer output is three sentences of 10 words each,
`chunk_text` with chunk_size 20 and overlap 10 returns exactly two chunks —
the first joining sentences 1 and 2, the second joining sentences 2 and 3
(sentence 2 repeated as the overlap seed). -/
theorem chunk_text_three_sentences (tok : String → Option (List String))
    (text s1 s2 s3 : String)
    (htext : (text.data.all Char.isWhitespace) = false)
    (htok : tok text = some [s1, s2, s3])
    (h1 : wcS s1 = 10) (h2 : wcS s2 = 10) (h3 : wcS s3 = 10) :
    Utils.chunk_text tok 20 10 text = [joinSp [s1, s2], joinSp [s2, s3]] := by
  unfold Utils.chunk_text
  rw [htext, htok]
  simp [chunkSentences, chunkLoop, overlapAux, h1, h2, h3]

/-- Witness for C4 at a concrete three-sentence input. -/
theorem chunk_text_three_sentences_witness :
    (wcS "a a a a a a a a a a" = 10 ∧ wcS "b b b b b b b b b b" = 10
      ∧ wcS "c c c c c c c c c c" = 10)
    ∧ Utils.chunk_text
        (fun _ => some ["a a a a a a a a a a", "b b b b b b b b b b", "c c c c c c c c c c"])
        20 10 "notes"
      = [joinSp ["a a a a a a a a a a", "b b b b b b b b b b"],
         joinSp ["b b b b b b b b b b", "c c c c c c c c c c"]] :=
  ⟨⟨by decide, by decide, by decide⟩,
   chunk_text_three_sentences _ "notes" _ _ _ (by decide) rfl
     (by decide) (by decide) (by decide)⟩

/-- C9: whenever the injected sentence tokenizer fails on a non-blank text,
`chunk_text` absorbs the failure and returns the whole text as the single
fallback chunk, never propagating the error. -/
theorem chunk_text_tokenizer_fallback (tok : String → Option (List String))
    (cs ov : Nat) (text : String)
    (htext : (text.data.all Char.isWhitespace) = false)
    (htok : tok text = none) :
    Utils.chunk_text tok cs ov text = [text] := by
  unfold Utils.chunk_text
  rw [htext, htok]
  simp

/-- Witness for C9: a failing tokenizer on "hello world" yields the whole-text
fallback chunk. -/
theorem chunk_text_tokenizer_fallback_witness :
    (("hello world".data.all Char.isWhitespace) = false)
    ∧ Utils.chunk_text (fun _ => none) 500 50 "hello world" = ["hello world"] :=
  ⟨by decide,
   chunk_text_tokenizer_fallback (fun _ => none) 500 50 "hello world" (by decide) rfl⟩

/-- C3: every chunk of `chunk_text` decomposes as its seed-overlap prefix plus
a remainder of fresh sentences, and concatenating the remainders in order
yields exactly the tokenizer's original sentence sequence — no sentence
dropped, none reordered, and no duplication beyond the overlap seeds. -/
theorem chunk_text_coverage (tok : String → Option (List String)) (cs ov : Nat)
    (text : String) (sents : List String)
    (htext : (text.data.all Char.isWhitespace) = false)
    (htok : tok text = some sents) :
    Utils.chunk_text tok cs ov text
        = (chunkSeeded wcS cs ov sents).map (fun p => joinSp (p.1 ++ p.2))
      ∧ ((chunkSeeded wcS cs ov sents).map Prod.snd).flatten = sents := by
  constructor
  · unfold Utils.chunk_text
    rw [htext, htok]
    have h := chunkLoopSeeded_proj wcS cs ov sents [] ([], []) 0
    simp only [List.map_nil, List.nil_append] at h
    simp only [chunkSentences, chunkSeeded]
    rw [h, List.map_map]
    rfl
  · have h := chunkLoopSeeded_snd_join wcS cs ov sents [] ([], []) 0
    simpa [chunkSeeded] using h

/-- Witness for C3 at the three-sentence input with word counts 10/15/1. -/
theorem chunk_text_coverage_witness :
    (("doc".data.all Char.isWhitespace) = false)
    ∧ (Utils.chunk_text
          (fun _ => some ["a a a a a a a a a a", "b b b b b b b b b b b b b b b", "c"])
          20 10 "doc"
        = (chunkSeeded wcS 20 10
            ["a a a a a a a a a a", "b b b b b b b b b b b b b b b", "c"]).map
            (fun p => joinSp (p.1 ++ p.2))
      ∧ ((chunkSeeded wcS 20 10
            ["a a a a a a a a a a", "b b b b b b b b b b b b b b b", "c"]).map
            Prod.snd).flatten
        = ["a a a a a a a a a a", "b b b b b b b b b b b b b b b", "c"]) :=
  ⟨by decide,
   chunk_text_coverage _ 20 10 "doc" _ (by decide) rfl⟩

namespace ChunkStore

/-- C5: the store's `put` is an idempotent upsert keyed by chunk id — putting
the same entry twice (and equally, `store_chunks` ingesting the same chunk id
twice) leaves exactly one stored entry under that id, overwriting instead of
duplicating.  The store is spec-modelled (chromadb is not part of src/). -/
theorem store_put_upsert (st : Store) (embedF : String → Option (List Int))
    (d : Pipeline.Doc) (v : List Int)
    (hinv : countId st.entries d.id ≤ 1) (hv : embedF d.text = some v)
    (hne : v ≠ []) (hdim : v.length = st.dim) :
    (∃ st1 st2,
        put st [⟨d.id, d.text, d.sourceFile, v⟩] = Except.ok st1
        ∧ put st1 [⟨d.id, d.text, d.sourceFile, v⟩] = Except.ok st2
        ∧ countId st2.entries d.id = 1)
    ∧ (∃ st3,
        Pipeline.store_chunks embedF st [d, d] = Except.ok st3
        ∧ countId st3.entries d.id = 1) := by
  have hall : ([(⟨d.id, d.text, d.sourceFile, v⟩ : Entry)].all
      fun e => e.emb.length == st.dim) = true := by
    simp [hdim]
  have hput1 : put st [⟨d.id, d.text, d.sourceFile, v⟩]
      = Except.ok ⟨st.dim, putOne st.entries ⟨d.id, d.text, d.sourceFile, v⟩⟩ := by
    unfold put
    rw [if_pos hall]
    rfl
  have hc1 : countId (putOne st.entries ⟨d.id, d.text, d.sourceFile, v⟩) d.id = 1 :=
    countId_putOne st.entries ⟨d.id, d.text, d.sourceFile, v⟩ hinv
  have hput2 : put ⟨st.dim, putOne st.entries ⟨d.id, d.text, d.sourceFile, v⟩⟩
        [⟨d.id, d.text, d.sourceFile, v⟩]
      = Except.ok ⟨st.dim,
          putOne (putOne st.entries ⟨d.id, d.text, d.sourceFile, v⟩)
            ⟨d.id, d.text, d.sourceFile, v⟩⟩ := by
    unfold put
    rw [if_pos hall]
    rfl
  have hc2 : countId (putOne (putOne st.entries ⟨d.id, d.text, d.sourceFile, v⟩)
      ⟨d.id, d.text, d.sourceFile, v⟩) d.id = 1 :=
    countId_putOne _ _ (by rw [hc1])
  refine ⟨⟨_, _, hput1, hput2, hc2⟩,
    ⟨⟨st.dim, putOne (putOne st.entries ⟨d.id, d.text, d.sourceFile, v⟩)
        ⟨d.id, d.text, d.sourceFile, v⟩⟩, ?_, hc2⟩⟩
  unfold Pipeline.store_chunks
  rw [hv]
  simp only [hne, if_neg]
  rw [hput1]
  unfold Pipeline.store_chunks
  rw [hv]
  simp only [hne, if_neg]
  rw [hput2]
  rfl

/-- Witness for C5: ingesting chunk id "c1" twice into an empty 3-dimensional
store leaves exactly one entry under "c1". -/
theorem store_put_upsert_witness :
    (countId (Store.mk 3 []).entries "c1" ≤ 1)
    ∧ ((∃ st1 st2,
          put (Store.mk 3 []) [⟨"c1", "t", "f", [1, 2, 3]⟩] = Except.ok st1
          ∧ put st1 [⟨"c1", "t", "f", [1, 2, 3]⟩] = Except.ok st2
          ∧ countId st2.entries "c1" = 1)
      ∧ (∃ st3,
          Pipeline.store_chunks (fun _ => some [1, 2, 3]) (Store.mk 3 []) [⟨"c1", "t", "f"⟩, ⟨"c1", "t", "f"⟩]
            = Except.ok st3
          ∧ countId st3.entries "c1" = 1)) :=
  ⟨by decide,
   store_put_upsert (Store.mk 3 []) (fun _ => some [1, 2, 3]) ⟨"c1", "t", "f"⟩ [1, 2, 3]
     (by decide) rfl (by decide) (by decide)⟩

/-- C6: a `put` whose embedding dimensionality differs from the store's
configured dimensionality fails with `SchemaMismatch` and applies nothing —
no updated store is ever produced, so the store's entries are unchanged by the
failed call.  The store is spec-modelled (chromadb is not part of src/). -/
theorem put_schema_mismatch (st : Store) (es : List Entry) (e : Entry)
    (hmem : e ∈ es) (hdim : e.emb.length ≠ st.dim) :
    put st es = Except.error StoreErr.SchemaMismatch
    ∧ ∀ st2, put st es ≠ Except.ok st2 := by
  have hall : (es.all fun x => x.emb.length == st.dim) = false := by
    cases h2 : es.all fun x => x.emb.length == st.dim
    · rfl
    · exact absurd (by simpa using List.all_eq_true.1 h2 e hmem) hdim
  have herr : put st es = Except.error StoreErr.SchemaMismatch := by
    unfold put
    rw [hall]
    rfl
  exact ⟨herr, fun st2 hst2 => Except.noConfusion (herr.symm.trans hst2)⟩

/-- Witness for C6: putting a 384-dimensional vector into a store schematized
to 768 dimensions fails with `SchemaMismatch`. -/
theorem put_schema_mismatch_witness :
    ((⟨"q1", "t", "f", List.replicate 384 0⟩ : Entry)
        ∈ [(⟨"q1", "t", "f", List.replicate 384 0⟩ : Entry)])
    ∧ put (Store.mk 768 [⟨"c0", "t0", "f0", List.replicate 768 0⟩])
        [⟨"q1", "t", "f", List.replicate 384 0⟩]
      = Except.error StoreErr.SchemaMismatch :=
  ⟨by decide,
   (put_schema_mismatch (Store.mk 768 [⟨"c0", "t0", "f0", List.replicate 768 0⟩])
     [⟨"q1", "t", "f", List.replicate 384 0⟩] ⟨"q1", "t", "f", List.replicate 384 0⟩
     (by decide) (by decide)).1⟩

end ChunkStore

/-- C7: when the pipeline's `embed_text` yields no usable vector for a query,
`retrieve_chunks` returns the empty list — the embedding failure is absorbed,
never surfaced to the caller. -/
theorem retrieve_chunks_embed_failure (runModel : String → String)
    (parseEval : String → Option (List Int))
    (colQuery : List Int → Nat → List (List String)) (query : String)
    (h : Pipeline.embed_text runModel parseEval query = none) :
    Pipeline.retrieve_chunks runModel parseEval colQuery query = [] := by
  unfold Pipeline.retrieve_chunks
  rw [h]

/-- Witness for C7: a parser that always fails makes retrieval return `[]`. -/
theorem retrieve_chunks_embed_failure_witness :
    (Pipeline.embed_text id (fun _ => none) "query" = none)
    ∧ Pipeline.retrieve_chunks id (fun _ => none) (fun _ _ => [["x"]]) "query" = [] :=
  ⟨rfl,
   retrieve_chunks_embed_failure id (fun _ => none) (fun _ _ => [["x"]]) "query" rfl⟩

/-- C8: for every title (and any context chunks), an empty task description
makes the assembled prompt contain the literal placeholder
"No specific description provided."; and on the concrete scenario
`assemble("Essay on X", "", [])` the prompt contains the placeholder and no
context-section heading — the context section is omitted entirely. -/
theorem format_assignment_prompt_defaults :
    (∀ (title : String) (chunks : List String),
        ∃ a b, (Utils.format_assignment_prompt title "" chunks).data
          = a ++ "No specific description provided.".data ++ b)
    ∧ strHas (Utils.format_assignment_prompt "Essay on X" "" [])
        "No specific description provided." = true
    ∧ strHas (Utils.format_assignment_prompt "Essay on X" "" [])
        "Relevant course materials:" = false := by
  refine ⟨?_, by decide, by decide⟩
  intro title chunks
  refine ⟨(Utils.promptHeader ++ title ++ Utils.promptDescTag).data,
          ("\n\n" ++ Utils.contextSection chunks ++ Utils.promptInstructions).data, ?_⟩
  simp [Utils.format_assignment_prompt, String.data_append, List.append_assoc]

/-- C10 (amended): `embed_text` of utils.py submits only the first 1000
characters of its input, so it cannot distinguish texts agreeing on that
prefix: `embed_text(t) = embed_text(t[:1000])` for every text.  (The pipeline's
own `embed_text`, which the retrieval path actually uses, submits the full
text — see the counterexample.) -/
theorem embed_text_prefix_limit (callOllama : String → String → Except String String)
    (parseEval : String → Option (List Int)) (t : String) :
    Utils.embed_text callOllama parseEval t
      = Utils.embed_text callOllama parseEval (pySlice 1000 t) := by
  unfold Utils.embed_text
  have h : pySlice 1000 (pySlice 1000 t) = pySlice 1000 t := by
    unfold pySlice
    simp [List.take_take]
  rw [h]

/-- C10 counterexample: two query texts agreeing on their first 1000
characters are retrieved differently by `retrieve_chunks`, because the
pipeline's `embed_text` submits the full text to the model — refuting the
claim's conclusion that similarity retrieval compares only 1000-character
prefixes of chunks and queries. -/
theorem retrieval_prefix_counterexample :
    pySlice 1000 qTextX = pySlice 1000 qTextY
    ∧ Pipeline.retrieve_chunks id parseDistinguish colQueryTag qTextX = ["A"]
    ∧ Pipeline.retrieve_chunks id parseDistinguish colQueryTag qTextY = ["B"] := by
  refine ⟨by decide, by decide, by decide⟩

end StudyMate
